import Mathlib

/-!
# Verification of the asr-media-cli audio-processor core

A shallow embedding, in Lean 4, of the pure control/state logic of the
`asr-media-cli` repository (Go), together with proofs about the claims of its
specification.  Each Go function that a claim touches is translated into an
executable Lean definition; external effects (filesystem `os.Stat` results,
`ffmpeg` invocations, recognition-backend network calls, wall-clock time) are
passed in as explicit parameters so the surrounding control flow stays exactly
the source's.

Machine integers are modelled as `Nat`/`Int` (no value in the embedded code
approaches overflow), `float64` ratio tests over small counters are modelled
exactly with `ℚ`, and Go strings are modelled as Lean `String` (the paths
manipulated are ASCII, so byte-level slicing agrees with character-level
slicing).
-/

namespace AsrSpec

/-! ## Go standard-library string helpers

The embedded code uses `path/filepath.Base`, `Ext`, `Clean`, `Join` and
`strings.ToLower`. These are faithful (Unix-separator) reimplementations.
-/

/-- `strings.ToLower` restricted to ASCII letters (all inputs in this
repository are ASCII file extensions/paths). -/
def goToLower (s : String) : String :=
  ⟨s.data.map (fun c => if 'A' ≤ c ∧ c ≤ 'Z' then Char.ofNat (c.toNat + 32) else c)⟩

/-- Helper for `goExt`: walk the reversed path, collecting characters until the
final dot of the final element; a path separator means "no extension". -/
def goExtAux : List Char → List Char → String
  | [], _ => ""
  | c :: rest, acc =>
    if c = '/' then ""
    else if c = '.' then ⟨'.' :: acc⟩
    else goExtAux rest (c :: acc)

/-- Go `filepath.Ext`: the suffix beginning at the final dot in the final
path element; empty if there is no dot. -/
def goExt (s : String) : String := goExtAux s.data.reverse []

/-- Go `filepath.Base`: the last element of the path after trailing slashes
are removed; `"."` for the empty path, `"/"` for all-slash paths. -/
def goBase (s : String) : String :=
  if s = "" then "." else
  let r := s.data.reverse.dropWhile (fun c => c = '/')
  if r = [] then "/" else ⟨(r.takeWhile (fun c => c ≠ '/')).reverse⟩

/-- Split a character list on `'/'` into path components. -/
def splitSlash : List Char → List (List Char)
  | [] => [[]]
  | c :: rest =>
    let r := splitSlash rest
    if c = '/' then [] :: r
    else
      match r with
      | h :: t => (c :: h) :: t
      | [] => [[c]]

/-- One step of Go `filepath.Clean`'s element processing, on a reversed
accumulator of kept components: drop empty and `"."` elements; `".."` pops the
previous component unless there is none (kept when not rooted, dropped at the
root) or the previous component is itself `".."`. -/
def cleanStep (rooted : Bool) (acc : List (List Char)) (c : List Char) : List (List Char) :=
  if c = [] ∨ c = ['.'] then acc
  else if c = ['.', '.'] then
    match acc with
    | [] => if rooted then [] else [['.', '.']]
    | a :: rest => if a = ['.', '.'] then c :: a :: rest else rest
  else c :: acc

/-- Join components with `'/'`. -/
def joinSlash : List (List Char) → List Char
  | [] => []
  | [c] => c
  | c :: rest => c ++ '/' :: joinSlash rest

/-- Go `filepath.Clean` (Unix rules). -/
def goClean (s : String) : String :=
  if s = "" then "." else
  let cs := s.data
  let rooted := cs.head? = some '/'
  let cleaned := ((splitSlash cs).foldl (cleanStep rooted) []).reverse
  if rooted then ⟨'/' :: joinSlash cleaned⟩
  else if cleaned = [] then "." else ⟨joinSlash cleaned⟩

/-- Go `filepath.Join` for two elements: concatenate with a separator and
`Clean` the result (empty elements are skipped). -/
def goJoin (a b : String) : String :=
  if a = "" then (if b = "" then "" else goClean b) else goClean (a ++ "/" ++ b)

/-- Go's `name[:len(name)-len(filepath.Ext(name))]` idiom (strip the
extension). -/
def stripExt (name : String) : String :=
  ⟨name.data.take (name.data.length - (goExt name).data.length)⟩

/-! ## AudioExtractor segmentation (`pkg/audio/extractor.go`)

`SplitAudioFile` probes the duration, builds `expectedSegments` jobs named
`<base>_part%03d.wav`, runs them on a worker pool, then reassembles the
completed output paths in ascending index order using `getSegmentIndex`.
The pure reassembly logic is embedded below; the `ffmpeg` work is modelled by
its observable contribution (each successful job pushes its output path onto
the results queue, in an arbitrary completion order).
-/

/-- `fmt.Sprintf("%03d", n)`: decimal, zero-padded to width 3. -/
def pad3 (n : Nat) : String :=
  let s := toString n
  if s.length ≥ 3 then s else ⟨List.replicate (3 - s.length) '0'⟩ ++ s

/-- The output filename built for job `i` (0-based):
`fmt.Sprintf("%s_part%03d.wav", baseFilename, i+1)`. -/
def segmentJobName (baseFilename : String) (i : Nat) : String :=
  baseFilename ++ "_part" ++ pad3 (i + 1) ++ ".wav"

/-- The output path of job `i`: `filepath.Join(e.TempSegmentsDir, outputFilename)`. -/
def segmentJobPath (tempSegmentsDir baseFilename : String) (i : Nat) : String :=
  goJoin tempSegmentsDir (segmentJobName baseFilename i)

/-- The scanning part of `fmt.Sscanf(filename, "part%03d.wav", &index)`:
the literal `part` must match at the start, then up to three digits are read
(at least one), then the literal `.wav` must follow; `none` models a non-nil
scan error. -/
def scanPartIndex (f : String) : Option Int :=
  let cs := f.data
  if cs.take 4 = ['p', 'a', 'r', 't'] then
    let rest := cs.drop 4
    let digits := (rest.takeWhile Char.isDigit).take 3
    if digits = [] then none
    else
      let rest2 := rest.drop digits.length
      if rest2.take 4 = ['.', 'w', 'a', 'v'] then
        some (Int.ofNat (digits.foldl (fun n c => 10 * n + (c.toNat - 48)) 0))
      else none
  else none

/-- `getSegmentIndex` (extractor.go:350-357): parse a segment filename back to
its 0-based index; the sentinel `999` is returned when the scan fails. -/
def getSegmentIndex (filename : String) : Int :=
  match scanPartIndex filename with
  | none => 999
  | some index => index - 1

/-- Go map lookup, on an association list (Go maps have unique keys). -/
def assocFind {κ α : Type} [DecidableEq κ] (m : List (κ × α)) (k : κ) : Option α :=
  (m.find? (fun p => decide (p.1 = k))).map (fun p => p.2)

/-- Go map assignment `m[k] = v`, on an association list: overwrite the
existing entry for `k`, or append a new one. -/
def assocInsert {κ α : Type} [DecidableEq κ] (m : List (κ × α)) (k : κ) (v : α) : List (κ × α) :=
  if m.any (fun p => decide (p.1 = k)) then
    m.map (fun p => if p.1 = k then (k, v) else p)
  else m ++ [(k, v)]

/-- The result-collection phase of `SplitAudioFile` (extractor.go:243-276),
given the drained `results` queue: each path's base name is keyed by
`getSegmentIndex`, then indices `0..expectedSegments-1` are walked in
ascending order picking the entries that exist. -/
def collectSegments (results : List String) (expectedSegments : Nat) : List String :=
  let resultMap := results.foldl
    (fun m f => assocInsert m (getSegmentIndex (goBase f)) (goBase f)) []
  (List.range expectedSegments).foldl
    (fun segmentFiles i =>
      match assocFind resultMap (Int.ofNat i) with
      | some filename => segmentFiles ++ [filename]
      | none => segmentFiles) []

/-- `expectedSegments := (duration + segmentLength - 1) / segmentLength`. -/
def expectedSegmentsOf (duration segmentLength : Nat) : Nat :=
  (duration + segmentLength - 1) / segmentLength

/-- `SplitAudioFile` (extractor.go:141-294) on a `duration`-second input, in
the run where every `ffmpeg` segment job succeeds and the results queue is
drained in job order (the reassembly is order-insensitive by construction). -/
def SplitAudioFile (tempSegmentsDir inputBase : String) (duration segmentLength : Nat) : List String :=
  let baseFilename := stripExt inputBase
  let expectedSegments := expectedSegmentsOf duration segmentLength
  let results := (List.range expectedSegments).map (segmentJobPath tempSegmentsDir baseFilename)
  collectSegments results expectedSegments

/-! ## BackendSelector statistics (`pkg/asr/selector.go`)

`ServiceStats` and `ReportResult` implement the availability circuit breaker.
The Go ratio test `float64(stat.SuccessCount)/float64(stat.TotalCount) < 0.2`
is modelled exactly over `ℚ` (for the counter magnitudes reached here the
`float64` division and comparison are exact, so the embedding is faithful).
-/

/-- `ServiceStats` (selector.go:19-23). -/
structure ServiceStats where
  SuccessCount : Nat
  TotalCount : Nat
  Available : Bool
deriving DecidableEq, Repr

/-- The stats a service starts with in `RegisterService` (selector.go:57-61). -/
def initialStats : ServiceStats := { SuccessCount := 0, TotalCount := 0, Available := true }

/-- `ReportResult` (selector.go:68-87): update the counters, then flip
availability off when this failure leaves `total > 5` with a success ratio
below `0.2`, or back on when a success arrives while unavailable. -/
def ReportResult (stat : ServiceStats) (success : Bool) : ServiceStats :=
  let s1 := if success then { stat with SuccessCount := stat.SuccessCount + 1 } else stat
  let s2 := { s1 with TotalCount := s1.TotalCount + 1 }
  if ¬ success ∧ s2.TotalCount > 5 ∧ (s2.SuccessCount : ℚ) / (s2.TotalCount : ℚ) < 1/5 then
    { s2 with Available := false }
  else if success ∧ ¬ s2.Available then
    { s2 with Available := true }
  else s2

/-- A sequence of reports to one freshly registered backend. -/
def reportSequence (l : List Bool) : ServiceStats := l.foldl ReportResult initialStats

/-! ## BackendSelector recognition run (`pkg/asr/selector.go:257-315`)

`RunWithService` (after the early-return validation steps, which none of the
claims involve) runs the recognition attempt up to `maxRetries + 1 = 3` times,
reports `success := err == nil && len(segments) > 0` into the stats, and on a
nil error hands a non-empty segment list to `ProcessResults`, whose error — if
any — ends up in the returned `err`.  The backend attempts and the export
step are external collaborators, passed in as functions.
-/

/-- The error values that can flow through the embedded pipeline. -/
inductive PipeError where
  | canceled
  | serviceFailure (msg : String)
  | exportFailure (msg : String)
  | unsupportedFormat (ext : String)
  | extractFailure (msg : String)
deriving DecidableEq, Repr

/-- `models.DataSegment`: one recognized text segment (`float64` seconds
modelled as `ℚ`). -/
structure DataSegment where
  Text : String
  StartTime : ℚ
  EndTime : ℚ
deriving DecidableEq, Repr

/-- `const maxRetries = 2` (selector.go:261). -/
def maxRetries : Nat := 2

/-- The retry loop of `RunWithService` (selector.go:263-286): `fuel` is the
number of retries still allowed, `retryCount` the index of the attempt to run;
the loop exits on a nil error or when the retry budget is exhausted, keeping
the last attempt's result.  Returns the final result and how many attempts
were executed. -/
def retryAttempts (attempt : Nat → Except PipeError (List DataSegment)) :
    Nat → Nat → Except PipeError (List DataSegment) × Nat
  | 0, retryCount => (attempt retryCount, retryCount + 1)
  | fuel + 1, retryCount =>
    match attempt retryCount with
    | .ok segments => (.ok segments, retryCount + 1)
    | .error _ => retryAttempts attempt fuel (retryCount + 1)

/-- Everything observable about one `RunWithService` call. -/
structure RunOutcome where
  segments : List DataSegment
  outputFiles : Option (List (String × String))
  err : Option PipeError
  reportedSuccess : Bool
  attemptsMade : Nat
deriving DecidableEq, Repr

/-- The recognition/report/export phase of `RunWithService`
(selector.go:257-315).  `attempt i` is the result of `service.GetResult` on
attempt `i` (each attempt runs under its own 5-minute sub-context of the
parent context), `processResults` is `ASRProcessor.ProcessResults`, and
`hasConfig` is `config != nil`. -/
def RunWithService (attempt : Nat → Except PipeError (List DataSegment))
    (processResults : List DataSegment → Except PipeError (List (String × String)))
    (hasConfig : Bool) : RunOutcome :=
  match retryAttempts attempt maxRetries 0 with
  | (.error e, n) =>
    -- success := err == nil && len(segments) > 0; ReportResult(name, success)
    { segments := [], outputFiles := none, err := some e,
      reportedSuccess := false, attemptsMade := n }
  | (.ok segments, n) =>
    let success := !segments.isEmpty
    if segments.length > 0 ∧ hasConfig then
      match processResults segments with
      | .ok outputFiles =>
        { segments := segments, outputFiles := some outputFiles, err := none,
          reportedSuccess := success, attemptsMade := n }
      | .error e =>
        -- the export error is logged (utils.Warn) and then returned as err
        { segments := segments, outputFiles := none, err := some e,
          reportedSuccess := success, attemptsMade := n }
    else
      { segments := segments, outputFiles := none, err := none,
        reportedSuccess := success, attemptsMade := n }

/-- `BatchResult` (batch_processor.go:21-27); `ProcessTime` (wall clock) is
omitted. -/
structure BatchResult where
  FilePath : String
  Success : Bool
  OutputPath : String
  Error : Option PipeError
deriving DecidableEq, Repr

/-- The error handling of `PerformASROnAudio` after `RunWithService` returns
(batch_processor.go:444-455): a non-nil error marks the file's pipeline result
unsuccessful; otherwise the result is left as it was. -/
def performASRErrorHandling (outcome : RunOutcome) (result : BatchResult) : BatchResult :=
  match outcome.err with
  | some e => { result with Success := false, Error := some e }
  | none => result

/-! ## BatchProcessor processed records (`pkg/audio/batch_processor.go`)

`IsRecognizedFile` and `updateProcessedRecord` work over the in-memory
`map[string]ProcessedRecord` plus filesystem probes.  The record map is an
association list with Go-map semantics; the `os.Stat`/`filepath.Glob` probes
are a read-only view of the filesystem, passed in as `FsView`.
-/

/-- `ProcessedRecord` (batch_processor.go:33-40); the `float64`
`TotalDuration` and the `Parts` sub-map are never read by the embedded
operations and are omitted. -/
structure ProcessedRecord where
  LastProcessedTime : String
  Completed : Bool
  Filename : String
  TotalParts : Nat
deriving DecidableEq, Repr

/-- The filesystem probes `IsRecognizedFile` makes: `statExists path` is
"`os.Stat(path)` succeeded", `globPartTxt dir` is "`filepath.Glob(dir +
"/part_*.txt")` returned at least one match". -/
structure FsView where
  statExists : String → Bool
  globPartTxt : String → Bool

/-- A filesystem view on which every probe fails. -/
def emptyFs : FsView := { statExists := fun _ => false, globPartTxt := fun _ => false }

/-- The local `baseName` of `IsRecognizedFile`: the base filename with its
extension stripped. -/
def recognizedBaseName (filePath : String) : String := stripExt (goBase filePath)

/-- The local `outputPath` of `IsRecognizedFile`:
`filepath.Join(p.OutputDir, baseName+".txt")`. -/
def recognizedOutputPath (outputDir filePath : String) : String :=
  goJoin outputDir (recognizedBaseName filePath ++ ".txt")

/-- The local `partDir` of `IsRecognizedFile`:
`filepath.Join(p.OutputDir, baseName)`. -/
def recognizedPartDir (outputDir filePath : String) : String :=
  goJoin outputDir (recognizedBaseName filePath)

/-- `IsRecognizedFile` (batch_processor.go:269-311): four checks, in order —
(1) a same-named `.txt` output artifact exists; (2) a part directory with an
`index.txt` or a `part_*.txt` exists; (3) the cleaned path has an entry in the
record map (mere existence — `Completed` is not consulted); (4) some record
shares the file's base filename, by key or by stored `Filename`. -/
def IsRecognizedFile (fs : FsView) (records : List (String × ProcessedRecord))
    (outputDir filePath : String) : Bool :=
  -- 方法1: same-named output artifact
  fs.statExists (recognizedOutputPath outputDir filePath) ||
  -- 方法2: part directory with index.txt or part_*.txt
  (fs.statExists (recognizedPartDir outputDir filePath) &&
     (fs.statExists (goJoin (recognizedPartDir outputDir filePath) "index.txt") ||
      fs.globPartTxt (recognizedPartDir outputDir filePath))) ||
  -- 方法3: entry in the record map under the cleaned path
  (assocFind records (goClean filePath)).isSome ||
  -- 方法4: some record with the same base filename
  records.any (fun p =>
    goBase p.1 == goBase filePath || p.2.Filename == goBase filePath)

/-- Modelled from the spec's words (the refinement target for claim C5): as
`IsRecognizedFile`, except that check (3) treats the path as handled only when
its record-map entry has `completed = true`. -/
def isAlreadyProcessedSpec (fs : FsView) (records : List (String × ProcessedRecord))
    (outputDir filePath : String) : Bool :=
  fs.statExists (recognizedOutputPath outputDir filePath) ||
  (fs.statExists (recognizedPartDir outputDir filePath) &&
     (fs.statExists (goJoin (recognizedPartDir outputDir filePath) "index.txt") ||
      fs.globPartTxt (recognizedPartDir outputDir filePath))) ||
  (match assocFind records (goClean filePath) with
   | some r => r.Completed
   | none => false) ||
  records.any (fun p =>
    goBase p.1 == goBase filePath || p.2.Filename == goBase filePath)

/-- `updateProcessedRecord` (batch_processor.go:314-340): upsert the record
keyed by the cleaned path, stamping `now` and `Completed := result.Success`
(a fresh record gets the file's base name as `Filename`); the synchronous
state-file rewrite has no effect on the in-memory map. -/
def updateProcessedRecord (records : List (String × ProcessedRecord))
    (filePath : String) (success : Bool) (now : String) : List (String × ProcessedRecord) :=
  let normalizedPath := goClean filePath
  let record :=
    match assocFind records normalizedPath with
    | some r => r
    | none =>
      { LastProcessedTime := "", Completed := false,
        Filename := goBase filePath, TotalParts := 0 }
  let record := { record with LastProcessedTime := now, Completed := success }
  assocInsert records normalizedPath record

/-! ## Per-file extraction routing (`pkg/audio/batch_processor.go:498-580`)

`extractAudioFromFile` classifies a file by extension: video extensions are
compared after lowercasing both sides, audio pass-through extensions are
compared verbatim, and anything else fails immediately with an
unsupported-format error.
-/

/-- `p.VideoExtensions` (batch_processor.go:90). -/
def VideoExtensions : List String := [".mp4", ".mov", ".avi", ".mkv", ".flv", ".wmv"]

/-- Which branch of `extractAudioFromFile` a path takes. -/
inductive ExtractRoute where
  | video
  | directAudio
  | unsupported
deriving DecidableEq, Repr

/-- The extension dispatch of `extractAudioFromFile`
(batch_processor.go:521-572): the video comparison lowercases both
extensions; the audio pass-through comparison is verbatim. -/
def extractRoute (filePath : String) : ExtractRoute :=
  let ext := goExt filePath
  let lowerExt := goToLower ext
  if VideoExtensions.any (fun videoExt => goToLower videoExt == lowerExt) then .video
  else if ext == ".mp3" || ext == ".wav" || ext == ".m4a" then .directAudio
  else .unsupported

/-- `extractAudioFromFile` (batch_processor.go:498-580) with the external
`ffmpeg` video extraction passed in as `extractVideo`: video files go through
extraction, supported audio files pass through unchanged, anything else
returns an unsupported-format failure with no further work. -/
def extractAudioFromFile (filePath : String)
    (extractVideo : String → Except PipeError String) : BatchResult :=
  match extractRoute filePath with
  | .video =>
    match extractVideo filePath with
    | .ok audioPath =>
      { FilePath := filePath, Success := true, OutputPath := audioPath, Error := none }
    | .error e =>
      { FilePath := filePath, Success := false, OutputPath := "", Error := some e }
  | .directAudio =>
    { FilePath := filePath, Success := true, OutputPath := filePath, Error := none }
  | .unsupported =>
    { FilePath := filePath, Success := false, OutputPath := "",
      Error := some (.unsupportedFormat (goExt filePath)) }

/-! ## FolderMonitor debounce (`internal/watcher/folder_monitor.go`)

`handleFileEvent` and `processFile` run under `m.mutex`, so their state
accesses linearize; a run of the monitor is a sequence of atomic steps.  A
`WatchEvent.timerFires p` step is one debounce-timer callback executing
`processFile(p)`.  The model deliberately lets *any* scheduled callback run,
even one whose timer was later `Stop()`ed (Go's `Timer.Stop` can race with a
firing callback), so the at-most-once property rests only on the
`processedFiles` guard — exactly as in the source.
-/

/-- The fields of an `fsnotify.Event` the monitor inspects. -/
structure FsEvent where
  name : String
  isCreate : Bool
  isWrite : Bool
deriving DecidableEq, Repr

/-- The mutable state of `FolderMonitor`: the per-path debounce-timer map
(each live timer named by a generation number), the dispensed-generation
counter, the "already seen" set, and — for observation — the list of paths
handed to the injected handler/processor. -/
structure MonitorState where
  pendingFiles : List (String × Nat)
  nextTimer : Nat
  processedFiles : List String
  dispatched : List String
deriving DecidableEq, Repr

/-- A monitor that has observed nothing yet. -/
def initialMonitor : MonitorState :=
  { pendingFiles := [], nextTimer := 0, processedFiles := [], dispatched := [] }

/-- `handleFileEvent` (folder_monitor.go:202-227): ignore anything but
create/write events on target files; otherwise stop the path's existing timer
(if any) and register a fresh debounce timer for the path. -/
def handleFileEvent (isTarget : String → Bool) (m : MonitorState) (e : FsEvent) : MonitorState :=
  if ¬ (e.isCreate || e.isWrite) then m
  else if ¬ isTarget e.name then m
  else
    { m with pendingFiles := assocInsert m.pendingFiles e.name m.nextTimer,
             nextTimer := m.nextTimer + 1 }

/-- `processFile` (folder_monitor.go:254-293): under the mutex, return
immediately if the path was already processed, else mark it processed and
drop its pending timer; then, if the file still exists, hand it (once) to the
injected handler/processor. -/
def processFile (fileExists : String → Bool) (m : MonitorState) (filePath : String) : MonitorState :=
  if filePath ∈ m.processedFiles then m
  else if ¬ fileExists filePath then
    -- marked processed, timer dropped, but the file vanished: no dispatch
    { m with processedFiles := m.processedFiles ++ [filePath],
             pendingFiles := m.pendingFiles.filter (fun q => decide (q.1 ≠ filePath)) }
  else
    { m with processedFiles := m.processedFiles ++ [filePath],
             pendingFiles := m.pendingFiles.filter (fun q => decide (q.1 ≠ filePath)),
             dispatched := m.dispatched ++ [filePath] }

/-- One observable step of a monitor run: a filesystem notification arrives,
or a debounce-timer callback runs. -/
inductive WatchEvent where
  | fs (e : FsEvent)
  | timerFires (path : String)
deriving DecidableEq, Repr

/-- Interleaved execution step (all state access is mutex-protected in the
source, so steps are atomic). -/
def watchStep (isTarget fileExists : String → Bool) (m : MonitorState) :
    WatchEvent → MonitorState
  | .fs e => handleFileEvent isTarget m e
  | .timerFires path => processFile fileExists m path

/-- A whole monitor run over a trace of events, from the initial state. -/
def runWatch (isTarget fileExists : String → Bool) (trace : List WatchEvent) : MonitorState :=
  trace.foldl (watchStep isTarget fileExists) initialMonitor

/-! ## ProgressManager registry (`src/unnamed/part_001`, internal/ui)

`CreateProgressBar` force-completes an existing entry with the suffix
"已被替换" before registering the replacement.  `ProgressBar.Complete` calls
`Update(p.Total, suffix)` and prints the final line; the model records each
force-completed bar (in its final, rendered state) in the call's
`completions` list.
-/

/-- `ProgressBar` (internal/ui/progress.go:12-22): the counters and texts;
`Width`/`FillChar`/`EmptyChar` are rendering constants and
`StartTime`/`LastUpdate` wall-clock values, none of which the registry logic
reads. `Prefix` is renamed `PrefixText`. -/
structure ProgressBar where
  Total : Int
  Current : Int
  PrefixText : String
  Suffix : String
deriving DecidableEq, Repr

/-- `NewProgressBar(total, prefix, suffix)` (progress.go:25-37). -/
def NewProgressBar (total : Int) (prefixText suffix : String) : ProgressBar :=
  { Total := total, Current := 0, PrefixText := prefixText, Suffix := suffix }

/-- `ProgressBar.Update` (progress.go:40-57): negative values are ignored,
larger-than-total values clamp, a non-empty suffix replaces the stored one. -/
def pbUpdate (p : ProgressBar) (current : Int) (suffix : String) : ProgressBar :=
  if current < 0 then p
  else
    let current := if current > p.Total then p.Total else current
    let p := { p with Current := current }
    if suffix ≠ "" then { p with Suffix := suffix } else p

/-- `ProgressBar.Complete` (progress.go:65-68): `Update(p.Total, suffix)`
followed by the final newline. -/
def pbComplete (p : ProgressBar) (suffix : String) : ProgressBar :=
  pbUpdate p p.Total suffix

/-- The `ProgressManager` registry state (part_001). -/
structure ProgressManager where
  progressBars : List (String × ProgressBar)
  enabled : Bool

/-- What one `CreateProgressBar` call produces: the new registry state, the
returned bar, and the bars it force-completed (in their final rendered
state). -/
structure CreateOutcome where
  state : ProgressManager
  returned : Option ProgressBar
  completions : List ProgressBar

/-- `CreateProgressBar` (part_001:24-40 and part_001:161-178, identical
logic): an existing entry under `id` is force-completed with "已被替换"; then,
if the manager is enabled, a fresh bar replaces it in the registry. -/
def CreateProgressBar (pm : ProgressManager) (id : String) (total : Int)
    (prefixText suffix : String) : CreateOutcome :=
  let completions :=
    match assocFind pm.progressBars id with
    | some bar => [pbComplete bar "已被替换"]
    | none => []
  if ¬ pm.enabled then
    { state := pm, returned := none, completions := completions }
  else
    let bar := NewProgressBar total prefixText suffix
    { state := { pm with progressBars := assocInsert pm.progressBars id bar },
      returned := some bar, completions := completions }

/-- How many registry entries carry key `k`. -/
def countKeys {α : Type} (m : List (String × α)) (k : String) : Nat :=
  (m.filter (fun p => decide (p.1 = k))).length

/-! ## Shared lemmas about the Go-map embedding -/

theorem find?_map_replace {κ α : Type} [DecidableEq κ] (k : κ) (v : α) :
    ∀ m : List (κ × α), m.any (fun p => decide (p.1 = k)) = true →
      (m.map (fun p => if p.1 = k then (k, v) else p)).find? (fun p => decide (p.1 = k)) =
        some (k, v)
  | [], h => by simp at h
  | q :: t, h => by
    simp only [List.map_cons]
    by_cases hq : q.1 = k
    · rw [if_pos hq, List.find?_cons_of_pos _ (by simp)]
    · rw [if_neg hq, List.find?_cons_of_neg _ (by simpa using hq)]
      apply find?_map_replace k v t
      simp only [List.any_cons, Bool.or_eq_true, decide_eq_true_eq] at h
      rcases h with h | h
      · exact absurd h hq
      · exact h

theorem assocFind_assocInsert_self {κ α : Type} [DecidableEq κ]
    (m : List (κ × α)) (k : κ) (v : α) :
    assocFind (assocInsert m k v) k = some v := by
  unfold assocInsert
  by_cases h : m.any (fun p => decide (p.1 = k)) = true
  · rw [if_pos h]
    unfold assocFind
    rw [find?_map_replace k v m h]
    rfl
  · rw [if_neg h]
    unfold assocFind
    have hnone : m.find? (fun p => decide (p.1 = k)) = none := by
      rw [List.find?_eq_none]
      intro x hx hpx
      exact h (List.any_eq_true.mpr ⟨x, hx, hpx⟩)
    rw [List.find?_append, hnone]
    simp

theorem assocInsert_mem {κ α : Type} [DecidableEq κ] (m : List (κ × α)) (k : κ) (v : α) :
    (k, v) ∈ assocInsert m k v := by
  unfold assocInsert
  by_cases h : m.any (fun p => decide (p.1 = k)) = true
  · rw [if_pos h]
    obtain ⟨q, hq, hpq⟩ := List.any_eq_true.mp h
    have heq : (fun p : κ × α => if p.1 = k then (k, v) else p) q = (k, v) := by
      simp [of_decide_eq_true hpq]
    exact List.mem_map.mpr ⟨q, hq, heq⟩
  · rw [if_neg h]
    exact List.mem_append_right _ (List.mem_singleton.mpr rfl)

theorem assocFind_isSome_of_mem {κ α : Type} [DecidableEq κ]
    {m : List (κ × α)} {k : κ} {v : α} (h : (k, v) ∈ m) :
    (assocFind m k).isSome = true := by
  unfold assocFind
  rcases hf : m.find? (fun p => decide (p.1 = k)) with _ | q
  · exfalso
    rw [List.find?_eq_none] at hf
    exact hf (k, v) h (by simp)
  · rw [hf]
    rfl

/-! ## Lemmas about `ReportResult` (claim C2) -/

theorem ReportResult_TotalCount (stat : ServiceStats) (b : Bool) :
    (ReportResult stat b).TotalCount = stat.TotalCount + 1 := by
  unfold ReportResult
  cases b <;> simp only [Bool.false_eq_true, if_false, if_true] <;>
    (split <;> [rfl; (split <;> rfl)])

theorem ReportResult_SuccessCount (stat : ServiceStats) (b : Bool) :
    (ReportResult stat b).SuccessCount = stat.SuccessCount + (if b then 1 else 0) := by
  unfold ReportResult
  cases b <;> simp only [Bool.false_eq_true, if_false, if_true] <;>
    (split <;> [rfl; (split <;> rfl)])

theorem foldl_ReportResult_TotalCount :
    ∀ (l : List Bool) (s : ServiceStats),
      (l.foldl ReportResult s).TotalCount = s.TotalCount + l.length
  | [], s => by simp
  | b :: t, s => by
    rw [List.foldl_cons, foldl_ReportResult_TotalCount t, ReportResult_TotalCount]
    simp only [List.length_cons]
    omega

theorem foldl_ReportResult_SuccessCount :
    ∀ (l : List Bool) (s : ServiceStats),
      (l.foldl ReportResult s).SuccessCount = s.SuccessCount + l.count true
  | [], s => by simp
  | b :: t, s => by
    rw [List.foldl_cons, foldl_ReportResult_SuccessCount t, ReportResult_SuccessCount]
    cases b <;> (simp [List.count_cons]; try omega)

/-! ## Claim C1 -/

/-- C1: the claim states that `SplitAudioFile` returns exactly `ceil(D/L)`
segment paths, in strictly ascending index order, for all `D, L > 0`.  The
code cannot: `getSegmentIndex` scans the format `part%03d.wav`, which never
matches the generated filenames `<base>_part%03d.wav`, so every completed
segment is keyed under the sentinel `999` and the ascending reassembly loop
finds none of the indices `0..expectedSegments-1`.  Evaluated at a 10-second
input with 5-second segments (both `ffmpeg` jobs succeeding),
`expectedSegments = 2`, yet `SplitAudioFile` returns the empty list. -/
theorem C1_SplitAudioFile_loses_all_segments :
    expectedSegmentsOf 10 5 = 2 ∧
    SplitAudioFile "temp/segments" "audio.mp3" 10 5 = [] ∧
    getSegmentIndex (goBase (segmentJobPath "temp/segments" "audio" 0)) = 999 :=
  ⟨rfl, by decide, by decide⟩

/-! ## Claim C2 -/

/-- C2 counterexample: the claim says that after *any* sequence of 6 reports
with at most 1 success the backend is unavailable.  For the sequence
`F F F F F S` (one success, arriving last) the availability-off branch is
never taken — it only runs when the report being processed is a failure — so
the backend remains available. -/
theorem C2_counterexample_success_last :
    (reportSequence [false, false, false, false, false, true]).Available = true := by
  decide

/-- C2 (amended): availability flips to `false` when a *failure* report
leaves `total > 5` and `success/total < 0.2` — in particular after any 6
reports with at most 1 success whose final report is a failure — and a single
success report while the backend is unavailable flips availability back to
`true`. -/
theorem C2_breaker_amended :
    (∀ l : List Bool, l.length = 5 → l.count true ≤ 1 →
      (reportSequence (l ++ [false])).Available = false) ∧
    (∀ stat : ServiceStats, stat.Available = false →
      (ReportResult stat true).Available = true) := by
  constructor
  · intro l hlen hcount
    unfold reportSequence
    rw [List.foldl_append, List.foldl_cons, List.foldl_nil]
    have hT : (l.foldl ReportResult initialStats).TotalCount = 5 := by
      rw [foldl_ReportResult_TotalCount]
      simp [initialStats, hlen]
    have hS : (l.foldl ReportResult initialStats).SuccessCount ≤ 1 := by
      rw [foldl_ReportResult_SuccessCount]
      simpa [initialStats] using hcount
    set st := l.foldl ReportResult initialStats with hst
    unfold ReportResult
    simp only [Bool.false_eq_true, if_false]
    rw [if_pos ?_]
    constructor
    · simp
    constructor
    · simp [hT]
    · have hq : (st.SuccessCount : ℚ) ≤ 1 := by exact_mod_cast hS
      rw [hT]
      have h6 : ((5 + 1 : ℕ) : ℚ) = 6 := by norm_num
      rw [h6, div_lt_div_iff₀ (by norm_num) (by norm_num)]
      linarith
  · intro stat h
    unfold ReportResult
    rw [if_neg (by simp), if_pos ⟨rfl, by simp [h]⟩]

/-- C2 witness for the amended theorem: six failures trip the breaker, and
one success while unavailable restores availability. -/
theorem C2_breaker_amended_witness :
    (reportSequence ([false, false, false, false, false] ++ [false])).Available = false ∧
    (ReportResult { SuccessCount := 1, TotalCount := 6, Available := false } true).Available
      = true :=
  ⟨C2_breaker_amended.1 [false, false, false, false, false] (by decide) (by decide),
   C2_breaker_amended.2 _ rfl⟩

/-! ## Claim C3 -/

/-- C3 counterexample: the claim says that cancelling the parent context
mid-attempt makes the retry loop exit immediately, without continuing into
any further retry attempt.  The loop has no parent-context check: when the
parent is cancelled before the first attempt completes, every attempt (each
derived sub-context being born cancelled) fails with `canceled`, and the loop
still runs all `maxRetries + 1 = 3` attempts before returning — not 1. -/
theorem C3_counterexample_retries_after_cancel :
    (RunWithService (fun _ => .error .canceled) (fun _ => .ok []) true).attemptsMade = 3 ∧
    ¬ (RunWithService (fun _ => .error .canceled) (fun _ => .ok []) true).attemptsMade = 1 := by
  constructor
  · rfl
  · decide

/-- C3 (amended): if the parent context is cancelled during recognition so
that the current and all remaining attempts fail with the cancellation error,
`RunWithService` does return the cancellation error — but only after running
all `maxRetries + 1 = 3` attempts (each remaining one against an
already-cancelled sub-context); the retry loop never exits early on
parent-context cancellation. -/
theorem C3_cancellation_amended
    (attempt : Nat → Except PipeError (List DataSegment))
    (processResults : List DataSegment → Except PipeError (List (String × String)))
    (hasConfig : Bool)
    (h : ∀ i, attempt i = .error .canceled) :
    (RunWithService attempt processResults hasConfig).err = some .canceled ∧
    (RunWithService attempt processResults hasConfig).attemptsMade = maxRetries + 1 := by
  unfold RunWithService maxRetries
  unfold retryAttempts
  rw [h 0]
  unfold retryAttempts
  rw [h 1]
  unfold retryAttempts
  rw [h 2]
  exact ⟨rfl, rfl⟩

/-- C3 witness: the amended theorem applied to the constantly-cancelled
attempt function. -/
theorem C3_cancellation_amended_witness :
    (RunWithService (fun _ => .error .canceled)
        (fun _ => .ok []) false).err = some .canceled ∧
    (RunWithService (fun _ => .error .canceled)
        (fun _ => .ok []) false).attemptsMade = maxRetries + 1 :=
  C3_cancellation_amended (fun _ => .error .canceled) (fun _ => .ok []) false (fun _ => rfl)

/-! ## Claim C4 -/

/-- C4 counterexample: the claim says an export (`ProcessResults`) failure is
only logged, `RunWithService` returns the segments with a nil error, and the
pipeline result stays successful.  In the code the export error is assigned
to `err` and returned (selector.go:304,314), and `PerformASROnAudio` then
marks the pipeline result unsuccessful (batch_processor.go:444-455): with one
good recognition attempt and a failing export, `err` is the export error and
`Success` becomes `false`. -/
theorem C4_counterexample_export_error_propagates :
    (RunWithService (fun _ => .ok [{ Text := "hi", StartTime := 0, EndTime := 1 }])
        (fun _ => .error (.exportFailure "write failed")) true).err
      = some (.exportFailure "write failed") ∧
    (performASRErrorHandling
        (RunWithService (fun _ => .ok [{ Text := "hi", StartTime := 0, EndTime := 1 }])
          (fun _ => .error (.exportFailure "write failed")) true)
        { FilePath := "a.mp4", Success := true, OutputPath := "out/a.mp3",
          Error := none }).Success = false := by
  constructor
  · rfl
  · rfl

/-- C4 (amended): if recognition succeeds with a non-empty segment list but
`ProcessResults` fails, the export failure is logged *and returned*:
`RunWithService` returns the recognition segments together with the export
error (and still reports the call as a success into the backend stats), and
`PerformASROnAudio` then marks the file's pipeline result unsuccessful. -/
theorem C4_export_failure_amended
    (attempt : Nat → Except PipeError (List DataSegment))
    (processResults : List DataSegment → Except PipeError (List (String × String)))
    (segments : List DataSegment) (e : PipeError) (result : BatchResult)
    (h0 : attempt 0 = .ok segments) (hne : segments ≠ [])
    (hp : processResults segments = .error e) :
    (RunWithService attempt processResults true).segments = segments ∧
    (RunWithService attempt processResults true).err = some e ∧
    (RunWithService attempt processResults true).reportedSuccess = true ∧
    (performASRErrorHandling (RunWithService attempt processResults true) result).Success
      = false := by
  have hrun : RunWithService attempt processResults true =
      { segments := segments, outputFiles := none, err := some e,
        reportedSuccess := true, attemptsMade := 1 } := by
    cases segments with
    | nil => exact absurd rfl hne
    | cons a t =>
      unfold RunWithService maxRetries
      unfold retryAttempts
      rw [h0]
      dsimp only
      rw [if_pos ⟨Nat.succ_pos _, rfl⟩, hp]
      rfl
  rw [hrun]
  exact ⟨rfl, rfl, rfl, rfl⟩

/-- C4 witness: the amended theorem applied to one successful attempt and a
failing export step. -/
theorem C4_export_failure_amended_witness :
    (RunWithService (fun _ => .ok [{ Text := "hi", StartTime := 0, EndTime := 1 }])
        (fun _ => .error (.exportFailure "disk full")) true).err
      = some (.exportFailure "disk full") ∧
    (performASRErrorHandling
        (RunWithService (fun _ => .ok [{ Text := "hi", StartTime := 0, EndTime := 1 }])
          (fun _ => .error (.exportFailure "disk full")) true)
        { FilePath := "b.mp4", Success := true, OutputPath := "out/b.mp3",
          Error := none }).Success = false := by
  have h := C4_export_failure_amended
    (fun _ => .ok [{ Text := "hi", StartTime := 0, EndTime := 1 }])
    (fun _ => .error (.exportFailure "disk full"))
    [{ Text := "hi", StartTime := 0, EndTime := 1 }]
    (.exportFailure "disk full")
    { FilePath := "b.mp4", Success := true, OutputPath := "out/b.mp3", Error := none }
    rfl (by decide) rfl
  exact ⟨h.2.1, h.2.2.2⟩

/-! ## Claim C9 -/

/-- C9: if every recognition attempt returns a nil error with an empty
segment list, the call is reported to the backend's stats as a failure
(success requires a nil error *and* at least one segment), yet
`RunWithService` returns a nil error to its caller and produces no output
files (the export step is skipped for empty segment lists). -/
theorem C9_empty_success_reported_as_failure
    (attempt : Nat → Except PipeError (List DataSegment))
    (processResults : List DataSegment → Except PipeError (List (String × String)))
    (hasConfig : Bool)
    (h : ∀ i, attempt i = .ok []) :
    RunWithService attempt processResults hasConfig =
      { segments := [], outputFiles := none, err := none,
        reportedSuccess := false, attemptsMade := 1 } := by
  unfold RunWithService maxRetries
  unfold retryAttempts
  rw [h 0]
  simp

/-- C9 witness: a backend that always answers with a nil error and zero
segments. -/
theorem C9_empty_success_reported_as_failure_witness :
    RunWithService (fun _ => .ok []) (fun _ => .ok [("txt", "out/a.txt")]) true =
      { segments := [], outputFiles := none, err := none,
        reportedSuccess := false, attemptsMade := 1 } :=
  C9_empty_success_reported_as_failure _ _ _ (fun _ => rfl)

/-! ## Claim C10 -/

/-- C10: in `extractAudioFromFile`, video extensions are matched after
lowercasing both sides (so any case variant of a video extension routes to
video extraction), while the audio pass-through comparison is verbatim: every
path whose extension is a non-lowercase variant of a supported audio
extension (`.MP3`, `.WAV`, `.M4A`, ...) is rejected immediately with an
unsupported-format error instead of passing through. -/
theorem C10_uppercase_audio_rejected
    (filePath : String) (extractVideo : String → Except PipeError String)
    (h1 : goToLower (goExt filePath) ∈ [".mp3", ".wav", ".m4a"])
    (h2 : goExt filePath ∉ ([".mp3", ".wav", ".m4a"] : List String)) :
    extractRoute filePath = .unsupported ∧
    (extractAudioFromFile filePath extractVideo).Success = false ∧
    (extractAudioFromFile filePath extractVideo).Error
      = some (.unsupportedFormat (goExt filePath)) ∧
    (∀ q : String, goToLower (goExt q) ∈ VideoExtensions → extractRoute q = .video) := by
  have hlowerVideo : ∀ x ∈ VideoExtensions, goToLower x = x := by decide
  have hroute : extractRoute filePath = .unsupported := by
    unfold extractRoute
    rw [if_neg ?hv, if_neg ?ha]
    case hv =>
      intro hc
      obtain ⟨v, hvmem, hveq⟩ := List.any_eq_true.mp hc
      have hveq' : goToLower v = goToLower (goExt filePath) := eq_of_beq hveq
      rw [hlowerVideo v hvmem] at hveq'
      rw [hveq'] at hvmem
      exact (show ∀ x ∈ [".mp3", ".wav", ".m4a"], x ∉ VideoExtensions by decide)
        _ h1 hvmem
    case ha =>
      intro hc
      simp only [Bool.or_eq_true, beq_iff_eq] at hc
      apply h2
      rcases hc with (hc | hc) | hc <;> simp [hc]
  refine ⟨hroute, ?_, ?_, ?_⟩
  · unfold extractAudioFromFile
    rw [hroute]
  · unfold extractAudioFromFile
    rw [hroute]
  · intro q hq
    unfold extractRoute
    rw [if_pos ?_]
    apply List.any_eq_true.mpr
    refine ⟨goToLower (goExt q), hq, ?_⟩
    rw [hlowerVideo _ hq]
    exact beq_self_eq_true _

/-- C10 witness: `a.MP3` is rejected as unsupported although `a.mp3` would
pass through, while `b.Mp4` still routes to video extraction. -/
theorem C10_uppercase_audio_rejected_witness :
    extractRoute "a.MP3" = ExtractRoute.unsupported ∧
    extractRoute "b.Mp4" = ExtractRoute.video :=
  ⟨(C10_uppercase_audio_rejected "a.MP3" (fun _ => .ok "") (by decide) (by decide)).1,
   (C10_uppercase_audio_rejected "a.MP3" (fun _ => .ok "") (by decide) (by decide)).2.2.2
     "b.Mp4" (by decide)⟩

/-! ## Claim C5 -/

/-- Congruence of the four-way check chain when the third check can be
weakened/strengthened: if the code's third check entails the fourth and the
spec's third check entails the code's, the chains agree. -/
theorem or_chain_congr {a b c c' d : Bool}
    (h1 : c = true → d = true) (h2 : c' = true → c = true) :
    (a || b || c || d) = (a || b || c' || d) := by
  cases a <;> cases b <;> cases d <;> cases c <;> cases c' <;> simp_all

/-- C5 counterexample: the claim says the record-map check treats a path as
handled only when its entry has `completed = true`.  The code's check 3 fires
on mere existence of the entry (batch_processor.go:297-300): for the path
`"foo/."` (whose normalized form `"foo"` has a record with
`completed = false`, stored filename `"foo"`, and whose base filename is
`"."`) `IsRecognizedFile` returns `true` while the spec's four-way
disjunction — with check (c) restricted to completed entries — is `false`. -/
theorem C5_counterexample_existence_not_completed :
    IsRecognizedFile emptyFs
      [("foo", { LastProcessedTime := "", Completed := false,
                 Filename := "foo", TotalParts := 0 })] "out" "foo/." = true ∧
    isAlreadyProcessedSpec emptyFs
      [("foo", { LastProcessedTime := "", Completed := false,
                 Filename := "foo", TotalParts := 0 })] "out" "foo/." = false := by
  exact ⟨by decide, by decide⟩

/-- C5 (amended): the code's record-map check fires on any existing entry,
`Completed` notwithstanding; nevertheless, for every path whose base filename
is preserved by normalization (every ordinary file path), `IsRecognizedFile`
agrees extensionally with the spec's disjunction, because any entry found by
check (c) also satisfies the same-base-filename rule (d). -/
theorem C5_IsRecognizedFile_amended (fs : FsView)
    (records : List (String × ProcessedRecord)) (outputDir filePath : String)
    (h : goBase (goClean filePath) = goBase filePath) :
    IsRecognizedFile fs records outputDir filePath =
      isAlreadyProcessedSpec fs records outputDir filePath := by
  unfold IsRecognizedFile isAlreadyProcessedSpec
  apply or_chain_congr
  · intro hc
    rw [Option.isSome_iff_exists] at hc
    obtain ⟨r, hr⟩ := hc
    unfold assocFind at hr
    obtain ⟨q, hq, hqr⟩ := Option.map_eq_some'.mp hr
    have hqmem := List.mem_of_find?_eq_some hq
    have hqk : q.1 = goClean filePath := by
      have := List.find?_some hq
      simpa using this
    apply List.any_eq_true.mpr
    refine ⟨q, hqmem, ?_⟩
    rw [Bool.or_eq_true]
    left
    rw [hqk, h]
    exact beq_self_eq_true _
  · intro hc
    rcases hf : assocFind records (goClean filePath) with _ | r
    · rw [hf] at hc
      simp at hc
    · rfl

/-- C5 witness: on an ordinary path the code's answer and the spec's
disjunction coincide. -/
theorem C5_IsRecognizedFile_amended_witness :
    IsRecognizedFile emptyFs
      [("a.mp3", { LastProcessedTime := "", Completed := false,
                   Filename := "a.mp3", TotalParts := 0 })] "out" "a.mp3" =
    isAlreadyProcessedSpec emptyFs
      [("a.mp3", { LastProcessedTime := "", Completed := false,
                   Filename := "a.mp3", TotalParts := 0 })] "out" "a.mp3" :=
  C5_IsRecognizedFile_amended emptyFs _ "out" "a.mp3" (by decide)

/-! ## Claim C6 -/

/-- C6 counterexample: the claim quantifies over every path `Q` sharing `P`'s
base filename.  Take `P = "foo/."` (base filename `"."`), a pre-existing
record under the normalized key `"foo"` whose stored filename is `"bar"`, and
`Q = "x/."` (base filename `"."` as well): after `updateProcessedRecord`
records success for `P`, `IsRecognizedFile Q` is `false` — no record key or
stored filename has base `"."`. -/
theorem C6_counterexample_stale_filename :
    goBase "x/." = goBase "foo/." ∧
    IsRecognizedFile emptyFs
      (updateProcessedRecord
        [("foo", { LastProcessedTime := "", Completed := false,
                   Filename := "bar", TotalParts := 0 })]
        "foo/." true "2025-01-01 00:00:00")
      "out" "x/." = false := by
  exact ⟨by decide, by decide⟩

/-- C6 (amended): after `updateProcessedRecord` records a successful result
for `P`, `IsRecognizedFile P` is `true` immediately (for every `P`), and
`IsRecognizedFile Q` is `true` for every other path `Q` with `P`'s base
filename provided `P`'s base filename is preserved by normalization (every
ordinary file path; only paths whose final element is `"."` or `".."` — which
never name media files — escape). -/
theorem C6_update_then_recognized_amended (fs : FsView)
    (records : List (String × ProcessedRecord)) (outputDir P Q now : String)
    (hP : goBase (goClean P) = goBase P) (hQ : goBase Q = goBase P) :
    IsRecognizedFile fs (updateProcessedRecord records P true now) outputDir P = true ∧
    IsRecognizedFile fs (updateProcessedRecord records P true now) outputDir Q = true := by
  constructor
  · unfold IsRecognizedFile updateProcessedRecord
    simp only [Bool.or_eq_true]
    left; right
    rw [assocFind_assocInsert_self]
    rfl
  · unfold IsRecognizedFile updateProcessedRecord
    simp only [Bool.or_eq_true]
    right
    apply List.any_eq_true.mpr
    refine ⟨_, assocInsert_mem _ _ _, ?_⟩
    rw [Bool.or_eq_true]
    left
    rw [hQ, hP]
    exact beq_self_eq_true _

/-- C6 witness: recording success for `media/a.mp3` makes both it and the
same-named `backup/a.mp3` recognized. -/
theorem C6_update_then_recognized_amended_witness :
    IsRecognizedFile emptyFs (updateProcessedRecord [] "media/a.mp3" true "t")
      "out" "media/a.mp3" = true ∧
    IsRecognizedFile emptyFs (updateProcessedRecord [] "media/a.mp3" true "t")
      "out" "backup/a.mp3" = true :=
  C6_update_then_recognized_amended emptyFs [] "out" "media/a.mp3" "backup/a.mp3" "t"
    (by decide) (by decide)

/-! ## Claim C7: invariants of the monitor run -/

theorem watchStep_processed_mono (isTarget fileExists : String → Bool)
    (m : MonitorState) (ev : WatchEvent) {p : String}
    (h : p ∈ m.processedFiles) : p ∈ (watchStep isTarget fileExists m ev).processedFiles := by
  cases ev with
  | fs e =>
    show p ∈ (handleFileEvent isTarget m e).processedFiles
    unfold handleFileEvent
    split
    · exact h
    · split
      · exact h
      · exact h
  | timerFires q =>
    show p ∈ (processFile fileExists m q).processedFiles
    unfold processFile
    split
    · exact h
    · split
      · exact List.mem_append_left _ h
      · exact List.mem_append_left _ h

theorem foldl_processed_mono (isTarget fileExists : String → Bool) {p : String} :
    ∀ (trace : List WatchEvent) (m : MonitorState), p ∈ m.processedFiles →
      p ∈ (trace.foldl (watchStep isTarget fileExists) m).processedFiles
  | [], _, h => h
  | ev :: t, m, h => by
    rw [List.foldl_cons]
    exact foldl_processed_mono isTarget fileExists t _
      (watchStep_processed_mono isTarget fileExists m ev h)

theorem watchStep_dispatch_inv (isTarget fileExists : String → Bool) (p : String)
    (m : MonitorState) (ev : WatchEvent)
    (h1 : m.dispatched.count p ≤ 1)
    (h2 : p ∈ m.dispatched → p ∈ m.processedFiles) :
    (watchStep isTarget fileExists m ev).dispatched.count p ≤ 1 ∧
    (p ∈ (watchStep isTarget fileExists m ev).dispatched →
      p ∈ (watchStep isTarget fileExists m ev).processedFiles) := by
  cases ev with
  | fs e =>
    show (handleFileEvent isTarget m e).dispatched.count p ≤ 1 ∧
      (p ∈ (handleFileEvent isTarget m e).dispatched →
        p ∈ (handleFileEvent isTarget m e).processedFiles)
    unfold handleFileEvent
    split
    · exact ⟨h1, h2⟩
    · split
      · exact ⟨h1, h2⟩
      · exact ⟨h1, h2⟩
  | timerFires q =>
    show (processFile fileExists m q).dispatched.count p ≤ 1 ∧
      (p ∈ (processFile fileExists m q).dispatched →
        p ∈ (processFile fileExists m q).processedFiles)
    unfold processFile
    split
    · exact ⟨h1, h2⟩
    · rename_i hqmem
      split
      · exact ⟨h1, fun hp => List.mem_append_left _ (h2 hp)⟩
      · by_cases hpq : p = q
        · subst hpq
          have hpd : p ∉ m.dispatched := fun hd => hqmem (h2 hd)
          have hz : m.dispatched.count p = 0 := List.count_eq_zero.mpr hpd
          constructor
          · rw [List.count_append, hz]
            simp
          · intro _
            exact List.mem_append_right _ (List.mem_singleton.mpr rfl)
        · have hcq : List.count p [q] = 0 :=
            List.count_eq_zero.mpr (fun hm => hpq (List.mem_singleton.mp hm))
          constructor
          · rw [List.count_append, hcq]
            omega
          · intro hp
            rcases List.mem_append.mp hp with hp | hp
            · exact List.mem_append_left _ (h2 hp)
            · exact absurd (List.mem_singleton.mp hp) hpq

theorem foldl_watch_inv (isTarget fileExists : String → Bool) (p : String) :
    ∀ (trace : List WatchEvent) (m : MonitorState),
      m.dispatched.count p ≤ 1 → (p ∈ m.dispatched → p ∈ m.processedFiles) →
      (trace.foldl (watchStep isTarget fileExists) m).dispatched.count p ≤ 1 ∧
        (p ∈ (trace.foldl (watchStep isTarget fileExists) m).dispatched →
          p ∈ (trace.foldl (watchStep isTarget fileExists) m).processedFiles)
  | [], _, h1, h2 => ⟨h1, h2⟩
  | ev :: t, m, h1, h2 => by
    rw [List.foldl_cons]
    obtain ⟨g1, g2⟩ := watchStep_dispatch_inv isTarget fileExists p m ev h1 h2
    exact foldl_watch_inv isTarget fileExists p t _ g1 g2

theorem watchStep_processed_iff_dispatched (isTarget fileExists : String → Bool)
    {p : String} (hfe : fileExists p = true) (m : MonitorState) (ev : WatchEvent)
    (h : p ∈ m.processedFiles ↔ p ∈ m.dispatched) :
    p ∈ (watchStep isTarget fileExists m ev).processedFiles ↔
      p ∈ (watchStep isTarget fileExists m ev).dispatched := by
  cases ev with
  | fs e =>
    show p ∈ (handleFileEvent isTarget m e).processedFiles ↔
      p ∈ (handleFileEvent isTarget m e).dispatched
    unfold handleFileEvent
    split
    · exact h
    · split
      · exact h
      · exact h
  | timerFires q =>
    show p ∈ (processFile fileExists m q).processedFiles ↔
      p ∈ (processFile fileExists m q).dispatched
    unfold processFile
    split
    · exact h
    · split
      · rename_i hq
        by_cases hpq : p = q
        · subst hpq
          exact absurd hfe hq
        · constructor
          · intro hp
            rcases List.mem_append.mp hp with hp | hp
            · exact h.mp hp
            · exact absurd (List.mem_singleton.mp hp) hpq
          · intro hp
            exact List.mem_append_left _ (h.mpr hp)
      · constructor
        · intro hp
          rcases List.mem_append.mp hp with hp | hp
          · exact List.mem_append_left _ (h.mp hp)
          · exact List.mem_append_right _ hp
        · intro hp
          rcases List.mem_append.mp hp with hp | hp
          · exact List.mem_append_left _ (h.mpr hp)
          · exact List.mem_append_right _ hp

theorem foldl_watch_processed_iff_dispatched (isTarget fileExists : String → Bool)
    {p : String} (hfe : fileExists p = true) :
    ∀ (trace : List WatchEvent) (m : MonitorState),
      (p ∈ m.processedFiles ↔ p ∈ m.dispatched) →
      (p ∈ (trace.foldl (watchStep isTarget fileExists) m).processedFiles ↔
        p ∈ (trace.foldl (watchStep isTarget fileExists) m).dispatched)
  | [], _, h => h
  | ev :: t, m, h => by
    rw [List.foldl_cons]
    exact foldl_watch_processed_iff_dispatched isTarget fileExists hfe t _
      (watchStep_processed_iff_dispatched isTarget fileExists hfe m ev h)

theorem foldl_watch_fire_processed (isTarget fileExists : String → Bool) (p : String) :
    ∀ (trace : List WatchEvent) (m : MonitorState),
      WatchEvent.timerFires p ∈ trace →
      p ∈ (trace.foldl (watchStep isTarget fileExists) m).processedFiles
  | [], _, h => absurd h (List.not_mem_nil _)
  | ev :: t, m, h => by
    rw [List.foldl_cons]
    rcases List.mem_cons.mp h with h | h
    · have hstep : p ∈ (watchStep isTarget fileExists m ev).processedFiles := by
        rw [← h]
        show p ∈ (processFile fileExists m p).processedFiles
        unfold processFile
        split
        · assumption
        · split
          · exact List.mem_append_right _ (List.mem_singleton.mpr rfl)
          · exact List.mem_append_right _ (List.mem_singleton.mpr rfl)
      exact foldl_processed_mono isTarget fileExists t _ hstep
    · exact foldl_watch_fire_processed isTarget fileExists p t _ h

/-- C7: for every path, over every interleaved run of the monitor — arbitrary
create/write bursts, debounce-timer restarts, and timer callbacks, including
stale callbacks that race a `Timer.Stop` — the injected handler receives the
path at most once; if at least one debounce timer for the path fires and the
file still exists, the handler receives it exactly once; and each fresh
create/write event on a target path cancels the path's previous debounce
timer and installs a new one. -/
theorem C7_debounce_single_dispatch (isTarget fileExists : String → Bool)
    (trace : List WatchEvent) (p : String) :
    (runWatch isTarget fileExists trace).dispatched.count p ≤ 1 ∧
    (fileExists p = true → WatchEvent.timerFires p ∈ trace →
      (runWatch isTarget fileExists trace).dispatched.count p = 1) ∧
    (∀ (m : MonitorState) (e : FsEvent), (e.isCreate || e.isWrite) = true →
      isTarget e.name = true →
      assocFind (handleFileEvent isTarget m e).pendingFiles e.name = some m.nextTimer) := by
  have hinv := foldl_watch_inv isTarget fileExists p trace initialMonitor
    (by simp [initialMonitor]) (by simp [initialMonitor])
  refine ⟨hinv.1, ?_, ?_⟩
  · intro hfe hin
    have hproc := foldl_watch_fire_processed isTarget fileExists p trace initialMonitor hin
    have hmem : p ∈ (runWatch isTarget fileExists trace).dispatched :=
      (foldl_watch_processed_iff_dispatched isTarget fileExists hfe trace initialMonitor
        (by simp [initialMonitor])).mp hproc
    have hpos : 0 < (runWatch isTarget fileExists trace).dispatched.count p :=
      List.count_pos_iff.mpr hmem
    have hle : (runWatch isTarget fileExists trace).dispatched.count p ≤ 1 := hinv.1
    omega
  · intro m e h1 h2
    unfold handleFileEvent
    rw [if_neg (by simp [h1]), if_neg (by simp [h2])]
    exact assocFind_assocInsert_self _ _ _

/-- C7 witness: `c.wav` created, then three write events, then the settled
debounce timer fires — the handler receives `c.wav` exactly once. -/
theorem C7_debounce_single_dispatch_witness :
    (runWatch (fun _ => true) (fun _ => true)
      [.fs { name := "c.wav", isCreate := true, isWrite := false },
       .fs { name := "c.wav", isCreate := false, isWrite := true },
       .fs { name := "c.wav", isCreate := false, isWrite := true },
       .fs { name := "c.wav", isCreate := false, isWrite := true },
       .timerFires "c.wav"]).dispatched.count "c.wav" = 1 :=
  (C7_debounce_single_dispatch (fun _ => true) (fun _ => true) _ "c.wav").2.1 rfl (by decide)

/-! ## Claim C8: registry lemmas and the replacement property -/

theorem any_eq_false_of_assocFind_none {κ α : Type} [DecidableEq κ]
    {m : List (κ × α)} {k : κ} (h : assocFind m k = none) :
    m.any (fun p => decide (p.1 = k)) = false := by
  rw [List.any_eq_false]
  intro q hq
  unfold assocFind at h
  rw [Option.map_eq_none'] at h
  rw [List.find?_eq_none] at h
  exact h q hq

theorem countKeys_cons {α : Type} (q : String × α) (t : List (String × α)) (k : String) :
    countKeys (q :: t) k = (if q.1 = k then 1 else 0) + countKeys t k := by
  unfold countKeys
  rw [List.filter_cons]
  by_cases hq : q.1 = k
  · simp [hq]
    omega
  · simp [hq]

theorem countKeys_map_replace {α : Type} (k : String) (v : α) :
    ∀ m : List (String × α),
      countKeys (m.map (fun p => if p.1 = k then (k, v) else p)) k = countKeys m k
  | [] => rfl
  | q :: t => by
    rw [List.map_cons, countKeys_cons, countKeys_cons, countKeys_map_replace k v t]
    by_cases hq : q.1 = k
    · simp [hq]
    · simp [hq]

theorem countKeys_append_single {α : Type} (m : List (String × α)) (k : String) (v : α) :
    countKeys (m ++ [(k, v)]) k = countKeys m k + 1 := by
  unfold countKeys
  rw [List.filter_append]
  simp

theorem countKeys_eq_zero_of_not_any {α : Type} {m : List (String × α)} {k : String}
    (h : m.any (fun p => decide (p.1 = k)) = false) : countKeys m k = 0 := by
  unfold countKeys
  rw [List.length_eq_zero, List.filter_eq_nil_iff]
  rw [List.any_eq_false] at h
  exact h

theorem countKeys_assocInsert_of_any_true {α : Type} (m : List (String × α))
    (k : String) (v : α) (h : m.any (fun p => decide (p.1 = k)) = true) :
    countKeys (assocInsert m k v) k = countKeys m k := by
  unfold assocInsert
  rw [if_pos h, countKeys_map_replace]

theorem countKeys_assocInsert_of_any_false {α : Type} (m : List (String × α))
    (k : String) (v : α) (h : m.any (fun p => decide (p.1 = k)) = false) :
    countKeys (assocInsert m k v) k = countKeys m k + 1 := by
  unfold assocInsert
  rw [if_neg (by simp [h]), countKeys_append_single]

/-- C8: calling `CreateProgressBar` twice with the same id (starting from an
enabled manager with no entry under that id, and a non-negative first total)
leaves exactly one live registry entry for the id — the second bar — and the
first call's bar is force-completed, visibly carrying the replacement marker
"已被替换" as its final suffix, during the second call, before being
overwritten. -/
theorem C8_create_twice_single_entry (pm : ProgressManager) (id : String)
    (t1 t2 : Int) (px1 sfx1 px2 sfx2 : String)
    (hen : pm.enabled = true)
    (hfresh : assocFind pm.progressBars id = none)
    (ht1 : 0 ≤ t1) :
    countKeys (CreateProgressBar (CreateProgressBar pm id t1 px1 sfx1).state
      id t2 px2 sfx2).state.progressBars id = 1 ∧
    (CreateProgressBar (CreateProgressBar pm id t1 px1 sfx1).state
      id t2 px2 sfx2).completions = [pbComplete (NewProgressBar t1 px1 sfx1) "已被替换"] ∧
    (pbComplete (NewProgressBar t1 px1 sfx1) "已被替换").Suffix = "已被替换" ∧
    assocFind (CreateProgressBar (CreateProgressBar pm id t1 px1 sfx1).state
      id t2 px2 sfx2).state.progressBars id = some (NewProgressBar t2 px2 sfx2) := by
  have hany : pm.progressBars.any (fun p => decide (p.1 = id)) = false :=
    any_eq_false_of_assocFind_none hfresh
  have h1 : CreateProgressBar pm id t1 px1 sfx1 =
      { state := { pm with
          progressBars := assocInsert pm.progressBars id (NewProgressBar t1 px1 sfx1) },
        returned := some (NewProgressBar t1 px1 sfx1), completions := [] } := by
    unfold CreateProgressBar
    rw [hfresh]
    rw [if_neg (by simp [hen])]
  have h2 : CreateProgressBar (CreateProgressBar pm id t1 px1 sfx1).state id t2 px2 sfx2 =
      { state := { pm with
          progressBars := assocInsert
            (assocInsert pm.progressBars id (NewProgressBar t1 px1 sfx1))
            id (NewProgressBar t2 px2 sfx2) },
        returned := some (NewProgressBar t2 px2 sfx2),
        completions := [pbComplete (NewProgressBar t1 px1 sfx1) "已被替换"] } := by
    rw [h1]
    unfold CreateProgressBar
    rw [assocFind_assocInsert_self]
    rw [if_neg (by simp [hen])]
  rw [h2]
  refine ⟨?_, rfl, ?_, ?_⟩
  · have hz : countKeys pm.progressBars id = 0 := countKeys_eq_zero_of_not_any hany
    have houter : (assocInsert pm.progressBars id
        (NewProgressBar t1 px1 sfx1)).any (fun p => decide (p.1 = id)) = true :=
      List.any_eq_true.mpr ⟨(id, NewProgressBar t1 px1 sfx1),
        assocInsert_mem _ _ _, by simp⟩
    rw [countKeys_assocInsert_of_any_true _ _ _ houter,
      countKeys_assocInsert_of_any_false _ _ _ hany, hz]
  · unfold pbComplete pbUpdate NewProgressBar
    rw [if_neg (not_lt.mpr ht1)]
    dsimp only
    rw [if_neg (lt_irrefl t1), if_pos (by decide)]
  · exact assocFind_assocInsert_self _ _ _

/-- C8 witness: the replacement property at a concrete enabled manager. -/
theorem C8_create_twice_single_entry_witness :
    countKeys (CreateProgressBar
      (CreateProgressBar { progressBars := [], enabled := true } "file_a" 100 "处理 a" "准备中").state
      "file_a" 100 "处理 a" "重新开始").state.progressBars "file_a" = 1 ∧
    (CreateProgressBar
      (CreateProgressBar { progressBars := [], enabled := true } "file_a" 100 "处理 a" "准备中").state
      "file_a" 100 "处理 a" "重新开始").completions
        = [pbComplete (NewProgressBar 100 "处理 a" "准备中") "已被替换"] := by
  have h := C8_create_twice_single_entry { progressBars := [], enabled := true }
    "file_a" 100 100 "处理 a" "准备中" "处理 a" "重新开始" rfl rfl (by decide)
  exact ⟨h.1, h.2.1⟩

end AsrSpec
